import Mathlib

/-!
Shallow embedding of `src/fermat_utils.py` (Fermat's-conjecture visualisation
helpers): error metrics, the batch test-case generator `generate_test_cases`
(grid pass with floor-root bracketing plus the n = 2 exact Pythagorean pass),
and the near-solution search `find_near_solutions`.

Python integers are modelled by `ℕ`/`ℤ`; Python float ("true") division of
integers is modelled by exact division in `ℚ`; the float expression
`int((a**n + b**n)**(1/n))` is modelled by the floor of the real n-th root
(`intRoot`), and `int(np.sqrt(x))` by `Nat.sqrt` — i.e. float rounding of the
root extraction is idealised as exact, which matches the float behaviour on
the ranges the program uses.
-/

set_option maxRecDepth 100000

/-- Embedding of `fermat_difference(a, b, c, n)`:
`abs(a**n + b**n - c**n)` over Python integers. -/
def fermat_difference (a b c n : ℕ) : ℤ :=
  |(a : ℤ) ^ n + (b : ℤ) ^ n - (c : ℤ) ^ n|

/-- Embedding of `fermat_relative_error(a, b, c, n)`:
`abs(a**n + b**n - c**n) / c**n` with Python's true division modelled as
exact division in `ℚ` (so the value is `0` when `c ^ n = 0`, a case the
checked variant below rules out). -/
def fermat_relative_error (a b c n : ℕ) : ℚ :=
  |(a : ℚ) ^ n + (b : ℚ) ^ n - (c : ℚ) ^ n| / (c : ℚ) ^ n

/-- Embedding of `fermat_relative_error` that models Python's runtime
behaviour of the division: when the denominator `c ** n` is zero, Python
raises `ZeroDivisionError`, modelled as `none`; otherwise the rational value
is returned. -/
def fermat_relative_error_checked (a b c n : ℕ) : Option ℚ :=
  if (c : ℚ) ^ n = 0 then none
  else some (fermat_relative_error a b c n)

/-- Fuel-driven climb computing the floor of the real n-th root: starting
from `k`, repeatedly step to `k + 1` while `(k + 1) ^ n ≤ s`. -/
def intRootAux (n s : ℕ) : ℕ → ℕ → ℕ
  | 0, k => k
  | fuel + 1, k => if (k + 1) ^ n ≤ s then intRootAux n s fuel (k + 1) else k

/-- Floor of the real n-th root of `s`: the model of the Python expression
`int(s ** (1/n))` (for `n ≥ 1` it is the greatest `k` with `k ^ n ≤ s`). -/
def intRoot (n s : ℕ) : ℕ := intRootAux n s s 0

/-- One row of the table built by `generate_test_cases`
(columns `a`, `b`, `c`, `error`, `relative_error`, `n`). -/
structure FermatRow where
  a : ℕ
  b : ℕ
  c : ℕ
  error : ℤ
  relative_error : ℚ
  n : ℕ
deriving DecidableEq, Repr

/-- The candidate-selection step of the grid loop in `generate_test_cases`:
`c_low = int((a**n + b**n)**(1/n))`, `c_high = c_low + 1`, keep `c_low` when
`error_low <= error_high and c_low > 0`, else keep `c_high` when
`c_high > 0`, else skip the pair (`continue`). -/
def selectCandidate (a b n : ℕ) : Option FermatRow :=
  let c_low := intRoot n (a ^ n + b ^ n)
  let c_high := c_low + 1
  let error_low := fermat_difference a b c_low n
  let error_high := fermat_difference a b c_high n
  if error_low ≤ error_high ∧ 0 < c_low then
    some ⟨a, b, c_low, error_low, fermat_relative_error a b c_low n, n⟩
  else if 0 < c_high then
    some ⟨a, b, c_high, error_high, fermat_relative_error a b c_high n, n⟩
  else
    none

/-- The per-pair body of the grid loop in `generate_test_cases`: candidate
selection followed by the `if n > 2 and rel_error > 0.1: continue` filter
(no filter for `n ≤ 2`). -/
def gridRow (n a b : ℕ) : Option FermatRow :=
  match selectCandidate a b n with
  | none => none
  | some r => if 2 < n ∧ 1 / 10 < r.relative_error then none else some r

/-- The grid `itertools.product(range(1, limit + 1), range(1, limit + 1))`
iterated by the first pass of `generate_test_cases`. -/
def gridPairs (limit : ℕ) : List (ℕ × ℕ) :=
  (List.range' 1 limit).product (List.range' 1 limit)

/-- The rows appended by the grid pass of `generate_test_cases`, with
`limit = min(max_value, 30)`. -/
def gridRows (max_value n : ℕ) : List FermatRow :=
  (gridPairs (min max_value 30)).filterMap (fun p => gridRow n p.1 p.2)

/-- The rows appended by the n = 2 exact-solution pass of
`generate_test_cases`: for `a in range(1, max_value + 1)` and
`b in range(a, max_value + 1)`, set `c_squared = a**2 + b**2`,
`c = int(np.sqrt(c_squared))`, and append `(a, b, c, 0.0, 0.0, 2)` iff
`c**2 == c_squared and c <= max_value`. -/
def exactRows (max_value : ℕ) : List FermatRow :=
  (List.range' 1 max_value).flatMap (fun a =>
    (List.range' a (max_value + 1 - a)).filterMap (fun b =>
      let c_squared := a ^ 2 + b ^ 2
      let c := Nat.sqrt c_squared
      if c ^ 2 = c_squared ∧ c ≤ max_value then
        some ⟨a, b, c, 0, 0, 2⟩
      else
        none))

/-- The full list of rows `generate_test_cases` produces for one exponent
`n`: the grid rows, followed (for n = 2 only) by the exact-solution rows. -/
def generate_test_cases_rows (max_value n : ℕ) : List FermatRow :=
  gridRows max_value n ++ (if n = 2 then exactRows max_value else [])

/-- Embedding of `generate_test_cases(max_value, n_values)`: the association
list mapping each requested exponent to its rows (the Python dict of
DataFrames, in insertion order). The Python function performs no validation
of `max_value` or of the exponents and raises nothing itself, so the
embedding is a total function. -/
def generate_test_cases (max_value : ℕ) (n_values : List ℕ) :
    List (ℕ × List FermatRow) :=
  n_values.map (fun n => (n, generate_test_cases_rows max_value n))

/-- One record of the list built by `find_near_solutions`
(keys `a`, `b`, `c`, `error`, `relative_error`). -/
structure NearRow where
  a : ℕ
  b : ℕ
  c : ℕ
  error : ℤ
  relative_error : ℚ
deriving DecidableEq, Repr

/-- The inner body of `find_near_solutions` for one pair `(a, b)`:
`c_candidates = [int(c_approx), int(c_approx) + 1]`; a candidate is skipped
when `c <= 0 or c > max_value`, and appended iff its relative error is at
most `error_threshold`. -/
def nearRowsForPair (max_value n : ℕ) (error_threshold : ℚ) (a b : ℕ) :
    List NearRow :=
  let c_approx := intRoot n (a ^ n + b ^ n)
  [c_approx, c_approx + 1].filterMap (fun c =>
    if c = 0 ∨ max_value < c then none
    else
      let error := fermat_difference a b c n
      let rel_error := fermat_relative_error a b c n
      if rel_error ≤ error_threshold then
        some ⟨a, b, c, error, rel_error⟩
      else
        none)

/-- Embedding of `find_near_solutions(max_value, n, error_threshold)`:
scan the full grid `a, b in range(1, max_value + 1)` and collect, for both
bracketing candidates, every record passing the range and threshold tests. -/
def find_near_solutions (max_value n : ℕ) (error_threshold : ℚ) :
    List NearRow :=
  (List.range' 1 max_value).flatMap (fun a =>
    (List.range' 1 max_value).flatMap (fun b =>
      nearRowsForPair max_value n error_threshold a b))

/-! Helper lemmas about the embedded operations. -/

/-- The relative error is a quotient of nonnegative rationals. -/
theorem fermat_relative_error_nonneg (a b c n : ℕ) :
    0 ≤ fermat_relative_error a b c n :=
  div_nonneg (abs_nonneg _) (pow_nonneg (Nat.cast_nonneg c) n)

/-- Shape of a successfully selected candidate: it carries the pair `(a, b)`,
a positive `c`, the relative error of the retained `c`, and the exponent. -/
theorem selectCandidate_spec (a b n : ℕ) (r : FermatRow)
    (h : selectCandidate a b n = some r) :
    r.a = a ∧ r.b = b ∧ 0 < r.c ∧
    r.error = fermat_difference a b r.c n ∧
    r.relative_error = fermat_relative_error a b r.c n ∧ r.n = n := by
  simp only [selectCandidate] at h
  split_ifs at h with h1 h2
  · cases h
    exact ⟨rfl, rfl, h1.2, rfl, rfl, rfl⟩
  · cases h
    exact ⟨rfl, rfl, h2, rfl, rfl, rfl⟩

/-- Shape of a grid row that survives the per-pair body: it was selected and
was not removed by the `n > 2` threshold filter. -/
theorem gridRow_spec (n a b : ℕ) (r : FermatRow) (h : gridRow n a b = some r) :
    selectCandidate a b n = some r ∧
    ¬(2 < n ∧ 1 / 10 < r.relative_error) := by
  unfold gridRow at h
  cases hsel : selectCandidate a b n with
  | none =>
      rw [hsel] at h
      have h' : (none : Option FermatRow) = some r := h
      cases h'
  | some s =>
      rw [hsel] at h
      have h' : (if 2 < n ∧ 1 / 10 < s.relative_error then none else some s) =
          some r := h
      split_ifs at h' with hf
      cases h'
      exact ⟨rfl, hf⟩

/-- The climb of `intRootAux` never moves below its starting point. -/
theorem intRootAux_le (n s : ℕ) : ∀ fuel k, k ≤ intRootAux n s fuel k := by
  intro fuel
  induction fuel with
  | zero =>
      intro k
      exact Nat.le_refl k
  | succ fuel ih =>
      intro k
      simp only [intRootAux]
      split_ifs with hc
      · exact le_trans (Nat.le_succ k) (ih (k + 1))
      · exact Nat.le_refl k

/-- For `s ≥ 1` the integer root is at least 1 (for any exponent), so the
`c_low > 0` guard of the grid loop always holds on the grid. -/
theorem one_le_intRoot (n s : ℕ) (hs : 1 ≤ s) : 1 ≤ intRoot n s := by
  obtain ⟨t, rfl⟩ : ∃ t, s = t + 1 := ⟨s - 1, by omega⟩
  show 1 ≤ intRootAux n (t + 1) (t + 1) 0
  have hstep : intRootAux n (t + 1) (t + 1) 0 =
      if (0 + 1) ^ n ≤ t + 1 then intRootAux n (t + 1) t 1 else 0 := rfl
  have hcond : (0 + 1) ^ n ≤ t + 1 := by
    have hone : (0 + 1 : ℕ) ^ n = 1 := by norm_num
    omega
  rw [hstep, if_pos hcond]
  exact intRootAux_le n (t + 1) t 1

/-- The selection step retains the lower-error bracketing candidate (ties go
to `c_low`), provided `c_low > 0` so that the first guard is decided by the
error comparison alone. -/
theorem selectCandidate_choice (a b n : ℕ) (r : FermatRow)
    (h : selectCandidate a b n = some r)
    (hpos : 0 < intRoot n (a ^ n + b ^ n)) :
    (fermat_difference a b (intRoot n (a ^ n + b ^ n)) n ≤
        fermat_difference a b (intRoot n (a ^ n + b ^ n) + 1) n →
      r.c = intRoot n (a ^ n + b ^ n)) ∧
    (fermat_difference a b (intRoot n (a ^ n + b ^ n) + 1) n <
        fermat_difference a b (intRoot n (a ^ n + b ^ n)) n →
      r.c = intRoot n (a ^ n + b ^ n) + 1) := by
  simp only [selectCandidate] at h
  split_ifs at h with h1 h2
  · cases h
    exact ⟨fun _ => rfl, fun hlt => absurd hlt (not_lt.2 h1.1)⟩
  · cases h
    constructor
    · intro hle
      exact absurd ⟨hle, hpos⟩ h1
    · intro _
      rfl

/-- Decomposition of membership in the exact-solution pass: every row comes
from a pair `a ≤ b` in range whose sum of squares is a perfect square with
root at most `max_value`. -/
theorem mem_exactRows (m : ℕ) (r : FermatRow) (h : r ∈ exactRows m) :
    ∃ a b, (1 ≤ a ∧ a < 1 + m) ∧ (a ≤ b ∧ b < a + (m + 1 - a)) ∧
      Nat.sqrt (a ^ 2 + b ^ 2) ^ 2 = a ^ 2 + b ^ 2 ∧
      Nat.sqrt (a ^ 2 + b ^ 2) ≤ m ∧
      r = ⟨a, b, Nat.sqrt (a ^ 2 + b ^ 2), 0, 0, 2⟩ := by
  unfold exactRows at h
  rw [List.mem_flatMap] at h
  obtain ⟨a, ha, h⟩ := h
  rw [List.mem_filterMap] at h
  obtain ⟨b, hb, hsome⟩ := h
  rw [List.mem_range'_1] at ha hb
  have hsome' : (if Nat.sqrt (a ^ 2 + b ^ 2) ^ 2 = a ^ 2 + b ^ 2 ∧
      Nat.sqrt (a ^ 2 + b ^ 2) ≤ m then
        some (⟨a, b, Nat.sqrt (a ^ 2 + b ^ 2), 0, 0, 2⟩ : FermatRow)
      else none) = some r := hsome
  split_ifs at hsome' with hc
  cases hsome'
  exact ⟨a, b, ha, hb, hc.1, hc.2, rfl⟩

/-- Decomposition of membership in `nearRowsForPair`: the record's `c` is one
of the two bracketing candidates, is in range, and passes the threshold. -/
theorem mem_nearRowsForPair (m n : ℕ) (t : ℚ) (a b : ℕ) (r : NearRow)
    (h : r ∈ nearRowsForPair m n t a b) :
    ∃ c, (c = intRoot n (a ^ n + b ^ n) ∨ c = intRoot n (a ^ n + b ^ n) + 1) ∧
      ¬(c = 0 ∨ m < c) ∧ fermat_relative_error a b c n ≤ t ∧
      r = ⟨a, b, c, fermat_difference a b c n, fermat_relative_error a b c n⟩ := by
  simp only [nearRowsForPair, List.mem_filterMap, List.mem_cons,
    List.mem_singleton, List.not_mem_nil, or_false] at h
  obtain ⟨c, hc, hsome⟩ := h
  refine ⟨c, hc, ?_⟩
  by_cases h0 : c = 0 ∨ m < c
  · rw [if_pos h0] at hsome
    cases hsome
  · rw [if_neg h0] at hsome
    by_cases ht : fermat_relative_error a b c n ≤ t
    · rw [if_pos ht] at hsome
      cases hsome
      exact ⟨h0, ht, rfl⟩
    · rw [if_neg ht] at hsome
      cases hsome

/-- Construction of membership in `nearRowsForPair`: any bracketing candidate
that is in range and passes the threshold is appended. -/
theorem nearRowsForPair_mem (m n : ℕ) (t : ℚ) (a b c : ℕ)
    (hc : c = intRoot n (a ^ n + b ^ n) ∨ c = intRoot n (a ^ n + b ^ n) + 1)
    (h0 : ¬(c = 0 ∨ m < c)) (ht : fermat_relative_error a b c n ≤ t) :
    (⟨a, b, c, fermat_difference a b c n, fermat_relative_error a b c n⟩ :
      NearRow) ∈ nearRowsForPair m n t a b := by
  simp only [nearRowsForPair, List.mem_filterMap, List.mem_cons,
    List.mem_singleton, List.not_mem_nil, or_false]
  exact ⟨c, hc, by rw [if_neg h0, if_pos ht]⟩

/-- Membership in the near-solution search, decomposed into the two range
loops and the per-pair body. -/
theorem mem_find_near_solutions (m n : ℕ) (t : ℚ) (r : NearRow) :
    r ∈ find_near_solutions m n t ↔
    ∃ a, (1 ≤ a ∧ a < 1 + m) ∧ ∃ b, (1 ≤ b ∧ b < 1 + m) ∧
      r ∈ nearRowsForPair m n t a b := by
  unfold find_near_solutions
  simp only [List.mem_flatMap, List.mem_range'_1]

/-- The batch result set for any `max_value ≤ 0` situation: with
`max_value = 0` both passes iterate over empty ranges. -/
theorem generate_test_cases_rows_zero (n : ℕ) :
    generate_test_cases_rows 0 n = [] := by
  simp [generate_test_cases_rows, gridRows, gridPairs, exactRows, List.product]

/-- Claim C2: every row appended by the n = 2 exact-solution enumeration
satisfies `a^2 + b^2 = c^2` as exact integer equality, carries
`error = 0` and `relative_error = 0`, and satisfies `a ≤ b`, `a < c`,
`b < c`, and `c ≤ max_value`. -/
theorem exact_rows_sound (max_value : ℕ) (r : FermatRow)
    (h : r ∈ exactRows max_value) :
    r.a ^ 2 + r.b ^ 2 = r.c ^ 2 ∧ r.error = 0 ∧ r.relative_error = 0 ∧
    r.a ≤ r.b ∧ r.a < r.c ∧ r.b < r.c ∧ r.c ≤ max_value := by
  obtain ⟨a, b, ha, hb, hsq, hle, rfl⟩ := mem_exactRows _ _ h
  have ha2 : 0 < a ^ 2 := pow_pos (by omega) 2
  have hb2 : 0 < b ^ 2 := pow_pos (by omega) 2
  refine ⟨hsq.symm, rfl, rfl, hb.1, ?_, ?_, hle⟩
  · have hlt : a ^ 2 < Nat.sqrt (a ^ 2 + b ^ 2) ^ 2 := by omega
    exact (Nat.pow_lt_pow_iff_left two_ne_zero).1 hlt
  · have hlt : b ^ 2 < Nat.sqrt (a ^ 2 + b ^ 2) ^ 2 := by omega
    exact (Nat.pow_lt_pow_iff_left two_ne_zero).1 hlt

/-- Witness for C2 at the Pythagorean row (3, 4, 5) with max_value = 5. -/
theorem exact_rows_sound_witness :
    (3 : ℕ) ^ 2 + 4 ^ 2 = 5 ^ 2 ∧ (0 : ℤ) = 0 ∧ (0 : ℚ) = 0 ∧
    (3 : ℕ) ≤ 4 ∧ (3 : ℕ) < 5 ∧ (4 : ℕ) < 5 ∧ (5 : ℕ) ≤ 5 :=
  exact_rows_sound 5 ⟨3, 4, 5, 0, 0, 2⟩ (by with_unfolding_all decide)

/-- Claim C3 as stated is false: with max_value = 5 the batch generator
emits the grid row (a = 5, b = 5, c = 7) whose `c` exceeds max_value. -/
theorem batch_row_exceeds_max_value :
    (⟨5, 5, 7, 1, 1 / 49, 2⟩ : FermatRow) ∈ generate_test_cases_rows 5 2 ∧
    ¬(FermatRow.c ⟨5, 5, 7, 1, 1 / 49, 2⟩ ≤ 5) :=
  ⟨by with_unfolding_all decide, by decide⟩

/-- Claim C3 amended: every row emitted by the batch generator has
`c > 0`; the bound `c ≤ max_value` holds for the exact-solution rows but is
not enforced for grid rows. -/
theorem batch_c_positive (max_value n : ℕ) (r : FermatRow)
    (h : r ∈ generate_test_cases_rows max_value n) : 0 < r.c := by
  unfold generate_test_cases_rows at h
  rw [List.mem_append] at h
  cases h with
  | inl hg =>
      unfold gridRows at hg
      rw [List.mem_filterMap] at hg
      obtain ⟨p, _, hrow⟩ := hg
      exact (selectCandidate_spec _ _ _ _ (gridRow_spec _ _ _ _ hrow).1).2.2.1
  | inr he =>
      by_cases h2 : n = 2
      · rw [if_pos h2] at he
        obtain ⟨a, b, ha, hb, hsq, _, rfl⟩ := mem_exactRows _ _ he
        have ha2 : 0 < a ^ 2 := pow_pos (by omega) 2
        have hpos : 0 < Nat.sqrt (a ^ 2 + b ^ 2) ^ 2 := by omega
        show 0 < Nat.sqrt (a ^ 2 + b ^ 2)
        refine Nat.pos_of_ne_zero fun hc => ?_
        rw [hc] at hpos
        simp at hpos
      · rw [if_neg h2] at he
        exact absurd he (List.not_mem_nil r)

/-- Witness for the amended C3 at a row of the max_value = 5, n = 2 batch. -/
theorem batch_c_positive_witness : (0 : ℕ) < 5 :=
  batch_c_positive 5 2 ⟨3, 4, 5, 0, 0, 2⟩ (by with_unfolding_all decide)

/-- Claim C5 as stated is false: an invalid bound (max_value = 0) is not
rejected; the generator and the near-solution search both run to completion
and return ordinary empty results, there being no validation code at all. -/
theorem invalid_bound_not_rejected :
    generate_test_cases 0 [2] = [(2, [])] ∧
    find_near_solutions 0 2 (1 / 10) = [] :=
  ⟨by with_unfolding_all decide, rfl⟩

/-- Claim C5 amended: no InvalidBound validation exists in the code; with
`max_value ≤ 0` (modelled by `max_value = 0`) every search runs normally
over empty ranges and returns an empty result set for each requested
exponent, and exponents `n ≤ 0` are likewise not pre-validated. -/
theorem generator_no_bound_validation :
    (∀ n_values : List ℕ, generate_test_cases 0 n_values =
      n_values.map (fun n => (n, ([] : List FermatRow)))) ∧
    (∀ (n : ℕ) (t : ℚ), find_near_solutions 0 n t = []) := by
  constructor
  · intro ns
    unfold generate_test_cases
    simp [generate_test_cases_rows_zero]
  · intro n t
    unfold find_near_solutions
    simp

/-- Claim C9: the checked relative error fails (raises ZeroDivisionError,
modelled by `none`) iff `c = 0`, and for every `c > 0` it returns the
total relative-error value. Stated for `n ≥ 1`, the exponent range of the
data model. -/
theorem relative_error_division_by_zero (a b c n : ℕ) (hn : 1 ≤ n) :
    (fermat_relative_error_checked a b c n = none ↔ c = 0) ∧
    (0 < c → fermat_relative_error_checked a b c n =
      some (fermat_relative_error a b c n)) := by
  have hiff : ((c : ℚ) ^ n = 0) ↔ c = 0 := by
    rw [pow_eq_zero_iff (by omega : n ≠ 0), Nat.cast_eq_zero]
  constructor
  · constructor
    · intro h
      by_contra hc
      rw [fermat_relative_error_checked, if_neg (fun h0 => hc (hiff.1 h0))] at h
      cases h
    · intro hc
      rw [fermat_relative_error_checked, if_pos (hiff.2 hc)]
  · intro hc
    rw [fermat_relative_error_checked, if_neg (by rw [hiff]; omega)]

/-- Witness for C9: failure at c = 0 and normal return at c = 5, n = 2. -/
theorem relative_error_division_by_zero_witness :
    (fermat_relative_error_checked 3 4 0 2 = none ↔ (0 : ℕ) = 0) ∧
    fermat_relative_error_checked 3 4 5 2 =
      some (fermat_relative_error 3 4 5 2) :=
  ⟨(relative_error_division_by_zero 3 4 0 2 (by decide)).1,
   (relative_error_division_by_zero 3 4 5 2 (by decide)).2 (by decide)⟩

/-- Claim C10: every record returned by the near-solution search satisfies
`1 ≤ a ≤ max_value`, `1 ≤ b ≤ max_value`, and `1 ≤ c ≤ max_value`. -/
theorem near_solutions_in_bounds (max_value n : ℕ) (t : ℚ) (r : NearRow)
    (h : r ∈ find_near_solutions max_value n t) :
    1 ≤ r.a ∧ r.a ≤ max_value ∧ 1 ≤ r.b ∧ r.b ≤ max_value ∧
    1 ≤ r.c ∧ r.c ≤ max_value := by
  obtain ⟨a, ha, b, hb, hpair⟩ := (mem_find_near_solutions _ _ _ _).1 h
  obtain ⟨c, _, h0, _, rfl⟩ := mem_nearRowsForPair _ _ _ _ _ _ hpair
  obtain ⟨hc0, hcm⟩ := not_or.1 h0
  refine ⟨ha.1, ?_, hb.1, ?_, ?_, ?_⟩
  · show a ≤ max_value
    omega
  · show b ≤ max_value
    omega
  · show 1 ≤ c
    omega
  · show c ≤ max_value
    omega

/-- Witness for C10 at the record (1, 1, 1) of the max_value = 2, n = 2,
threshold = 1 search. -/
theorem near_solutions_in_bounds_witness :
    (1 : ℕ) ≤ 1 ∧ (1 : ℕ) ≤ 2 ∧ (1 : ℕ) ≤ 1 ∧ (1 : ℕ) ≤ 2 ∧
    (1 : ℕ) ≤ 1 ∧ (1 : ℕ) ≤ 2 :=
  near_solutions_in_bounds 2 2 1 ⟨1, 1, 1, 1, 1⟩ (by with_unfolding_all decide)

/-- Claim C1: every row with exponent n > 2 in a batch result set has
`0 ≤ relative_error ≤ 1/10`; for n = 2 the threshold filter is not applied
to grid rows (every selected candidate passes the filter stage unchanged
and reaches the result). -/
theorem batch_relative_error_bounds :
    (∀ max_value n r, 2 < n → r ∈ generate_test_cases_rows max_value n →
      0 ≤ r.relative_error ∧ r.relative_error ≤ 1 / 10) ∧
    (∀ a b r, selectCandidate a b 2 = some r → gridRow 2 a b = some r) ∧
    (∀ max_value a b r, (a, b) ∈ gridPairs (min max_value 30) →
      gridRow 2 a b = some r → r ∈ gridRows max_value 2) := by
  refine ⟨?_, ?_, ?_⟩
  · intro m n r hn h
    unfold generate_test_cases_rows at h
    rw [if_neg (by omega : n ≠ 2), List.append_nil] at h
    unfold gridRows at h
    rw [List.mem_filterMap] at h
    obtain ⟨p, _, hrow⟩ := h
    obtain ⟨hsel, hfil⟩ := gridRow_spec _ _ _ _ hrow
    obtain ⟨_, _, _, _, hrel, _⟩ := selectCandidate_spec _ _ _ _ hsel
    constructor
    · rw [hrel]
      exact fermat_relative_error_nonneg _ _ _ _
    · by_contra hgt
      push_neg at hgt
      exact hfil ⟨hn, hgt⟩
  · intro a b r hsel
    unfold gridRow
    rw [hsel]
    show (if 2 < 2 ∧ 1 / 10 < r.relative_error then none else some r) = some r
    rw [if_neg (by simp)]
  · intro m a b r hp hrow
    unfold gridRows
    rw [List.mem_filterMap]
    exact ⟨(a, b), hp, hrow⟩

/-- Witness for C1: a concrete n = 3 row within the bounds, and the
unfiltered passage of the n = 2 grid row (3, 4, 5). -/
theorem batch_relative_error_bounds_witness :
    (0 ≤ FermatRow.relative_error ⟨1, 3, 3, 1, 1 / 27, 3⟩ ∧
      FermatRow.relative_error ⟨1, 3, 3, 1, 1 / 27, 3⟩ ≤ 1 / 10) ∧
    gridRow 2 3 4 = some ⟨3, 4, 5, 0, 0, 2⟩ ∧
    (⟨3, 4, 5, 0, 0, 2⟩ : FermatRow) ∈ gridRows 5 2 :=
  ⟨batch_relative_error_bounds.1 3 3 ⟨1, 3, 3, 1, 1 / 27, 3⟩ (by decide)
      (by with_unfolding_all decide),
   batch_relative_error_bounds.2.1 3 4 ⟨3, 4, 5, 0, 0, 2⟩
      (by with_unfolding_all decide),
   batch_relative_error_bounds.2.2 5 3 4 ⟨3, 4, 5, 0, 0, 2⟩ (by decide)
      (by with_unfolding_all decide)⟩

/-- Claim C4 as stated is false: with max_value = 5 the n = 2 result set
contains two rows with the pair (a, b) = (3, 4) — one from the grid pass
and one appended by the exact-solution pass. -/
theorem duplicate_pair_in_batch :
    2 ≤ (generate_test_cases_rows 5 2).countP
      (fun r => r.a == 3 && r.b == 4) := by
  with_unfolding_all decide

/-- Mapping each produced value back to its key selects a sublist of the
scanned keys. -/
theorem map_key_filterMap_sublist {α β : Type _} (f : α → Option β)
    (key : β → α) (hf : ∀ a r, f a = some r → key r = a) :
    ∀ l : List α, ((l.filterMap f).map key).Sublist l := by
  intro l
  induction l with
  | nil => simp
  | cons a l ih =>
      cases hfa : f a with
      | none =>
          rw [List.filterMap_cons_none hfa]
          exact ih.cons a
      | some r =>
          rw [List.filterMap_cons_some hfa, List.map_cons, hf a r hfa]
          exact ih.cons₂ a

/-- The (a, b) keys of the grid rows are pairwise distinct. -/
theorem gridRows_pairwise_ne (max_value n : ℕ) :
    (gridRows max_value n).Pairwise (fun r s => (r.a, r.b) ≠ (s.a, s.b)) := by
  have hf : ∀ (p : ℕ × ℕ) (r : FermatRow),
      gridRow n p.1 p.2 = some r → (r.a, r.b) = p := by
    intro p r h
    obtain ⟨hsel, _⟩ := gridRow_spec _ _ _ _ h
    obtain ⟨ha, hb, _⟩ := selectCandidate_spec _ _ _ _ hsel
    obtain ⟨x, y⟩ := p
    rw [ha, hb]
  have hnodup : (gridPairs (min max_value 30)).Nodup :=
    List.Nodup.product (List.nodup_range' _ _) (List.nodup_range' _ _)
  have hmapnodup :
      (((gridPairs (min max_value 30)).filterMap
        (fun p => gridRow n p.1 p.2)).map (fun r => (r.a, r.b))).Nodup :=
    (@map_key_filterMap_sublist (ℕ × ℕ) FermatRow
      (fun p => gridRow n p.1 p.2) (fun r => (r.a, r.b)) hf
      (gridPairs (min max_value 30))).nodup hnodup
  unfold gridRows
  exact List.pairwise_map.mp hmapnodup

/-- Claim C4 amended: for every exponent n the grid pass retains at most one
row per (a, b) pair, and the retained c is the lower-error of the two
bracketing candidates (with a tie going to c_low, and the recorded error
being that candidate's absolute error); however the full n = 2 result set
can repeat an (a, b) pair, because the exact-solution pass appends its rows
in addition to the grid rows. -/
theorem grid_rows_unique_lower_error_bracket :
    (∀ max_value n, (gridRows max_value n).Pairwise
        (fun r s => (r.a, r.b) ≠ (s.a, s.b))) ∧
    (∀ max_value n r, r ∈ gridRows max_value n →
      r.error = fermat_difference r.a r.b r.c n ∧
      (fermat_difference r.a r.b (intRoot n (r.a ^ n + r.b ^ n)) n ≤
          fermat_difference r.a r.b (intRoot n (r.a ^ n + r.b ^ n) + 1) n →
        r.c = intRoot n (r.a ^ n + r.b ^ n)) ∧
      (fermat_difference r.a r.b (intRoot n (r.a ^ n + r.b ^ n) + 1) n <
          fermat_difference r.a r.b (intRoot n (r.a ^ n + r.b ^ n)) n →
        r.c = intRoot n (r.a ^ n + r.b ^ n) + 1)) := by
  refine ⟨gridRows_pairwise_ne, ?_⟩
  intro m n r h
  unfold gridRows at h
  rw [List.mem_filterMap] at h
  obtain ⟨p, hp, hrow⟩ := h
  obtain ⟨x, y⟩ := p
  unfold gridPairs at hp
  rw [List.pair_mem_product, List.mem_range'_1, List.mem_range'_1] at hp
  obtain ⟨hsel, _⟩ := gridRow_spec _ _ _ _ hrow
  obtain ⟨ha, hb, _, herr, _, _⟩ := selectCandidate_spec _ _ _ _ hsel
  have hx : 0 < x ^ n := pow_pos (by omega) n
  have hpos : 0 < intRoot n (x ^ n + y ^ n) :=
    one_le_intRoot n (x ^ n + y ^ n) (by omega)
  rw [ha, hb]
  exact ⟨herr, (selectCandidate_choice x y n r hsel hpos).1,
    (selectCandidate_choice x y n r hsel hpos).2⟩

/-- Witness for the amended C4: in the max_value = 5, n = 2 grid the pair
(3, 4) keeps the lower bracket c = 5 (error 0 ≤ 11) while the pair (2, 3)
keeps the upper bracket c = 4 (error 3 < 4), with the recorded error
matching the retained candidate. -/
theorem grid_rows_unique_lower_error_bracket_witness :
    (0 : ℤ) = fermat_difference 3 4 5 2 ∧
    (5 : ℕ) = intRoot 2 (3 ^ 2 + 4 ^ 2) ∧
    (4 : ℕ) = intRoot 2 (2 ^ 2 + 3 ^ 2) + 1 :=
  ⟨(grid_rows_unique_lower_error_bracket.2 5 2 ⟨3, 4, 5, 0, 0, 2⟩
      (by with_unfolding_all decide)).1,
   (grid_rows_unique_lower_error_bracket.2 5 2 ⟨3, 4, 5, 0, 0, 2⟩
      (by with_unfolding_all decide)).2.1 (by with_unfolding_all decide),
   (grid_rows_unique_lower_error_bracket.2 5 2 ⟨2, 3, 4, 3, 3 / 16, 2⟩
      (by with_unfolding_all decide)).2.2 (by with_unfolding_all decide)⟩

/-- Claim C6: every record returned by `find_near_solutions` passes the
threshold independently, and the search is an inclusive filter: each
bracketing candidate that is in range and passes the threshold is in the
returned list (so both may appear for the same pair). -/
theorem near_solutions_inclusive :
    (∀ max_value n t r, r ∈ find_near_solutions max_value n t →
      r.relative_error ≤ t) ∧
    (∀ max_value n t a b c, 1 ≤ a → a ≤ max_value → 1 ≤ b → b ≤ max_value →
      (c = intRoot n (a ^ n + b ^ n) ∨ c = intRoot n (a ^ n + b ^ n) + 1) →
      c ≠ 0 → c ≤ max_value → fermat_relative_error a b c n ≤ t →
      (⟨a, b, c, fermat_difference a b c n, fermat_relative_error a b c n⟩ :
        NearRow) ∈ find_near_solutions max_value n t) := by
  constructor
  · intro m n t r h
    obtain ⟨a, _, b, _, hpair⟩ := (mem_find_near_solutions _ _ _ _).1 h
    obtain ⟨c, _, _, ht, rfl⟩ := mem_nearRowsForPair _ _ _ _ _ _ hpair
    exact ht
  · intro m n t a b c ha1 ham hb1 hbm hc hc0 hcm ht
    rw [mem_find_near_solutions]
    exact ⟨a, ⟨ha1, by omega⟩, b, ⟨hb1, by omega⟩,
      nearRowsForPair_mem m n t a b c hc (by omega) ht⟩

/-- Witness for C6: for (a, b) = (3, 4), n = 2, max_value = 6 and threshold
1/2, both bracketing candidates c = 5 and c = 6 are returned. -/
theorem near_solutions_inclusive_witness :
    NearRow.relative_error ⟨3, 4, 6, 11, 11 / 36⟩ ≤ 1 / 2 ∧
    (⟨3, 4, 5, fermat_difference 3 4 5 2, fermat_relative_error 3 4 5 2⟩ :
      NearRow) ∈ find_near_solutions 6 2 (1 / 2) ∧
    (⟨3, 4, 6, fermat_difference 3 4 6 2, fermat_relative_error 3 4 6 2⟩ :
      NearRow) ∈ find_near_solutions 6 2 (1 / 2) :=
  ⟨near_solutions_inclusive.1 6 2 (1 / 2) ⟨3, 4, 6, 11, 11 / 36⟩
      (by with_unfolding_all decide),
   near_solutions_inclusive.2 6 2 (1 / 2) 3 4 5 (by decide) (by decide)
      (by decide) (by decide) (Or.inl (by decide)) (by decide) (by decide)
      (by with_unfolding_all decide),
   near_solutions_inclusive.2 6 2 (1 / 2) 3 4 6 (by decide) (by decide)
      (by decide) (by decide) (Or.inr (by decide)) (by decide) (by decide)
      (by with_unfolding_all decide)⟩

/-- Claim C7: for thresholds t₁ ≤ t₂ and identical max_value and n, every
triple in the t₁ search result is also in the t₂ search result. -/
theorem near_solutions_threshold_monotone (max_value n : ℕ) (t₁ t₂ : ℚ)
    (hts : t₁ ≤ t₂) (r : NearRow)
    (h : r ∈ find_near_solutions max_value n t₁) :
    r ∈ find_near_solutions max_value n t₂ := by
  obtain ⟨a, ha, b, hb, hpair⟩ := (mem_find_near_solutions _ _ _ _).1 h
  obtain ⟨c, hc, h0, ht, rfl⟩ := mem_nearRowsForPair _ _ _ _ _ _ hpair
  rw [mem_find_near_solutions]
  exact ⟨a, ha, b, hb, nearRowsForPair_mem _ _ _ _ _ _ hc h0 (le_trans ht hts)⟩

/-- Witness for C7: the record (3, 4, 5) found at threshold 1/10 is still
present at threshold 1/2. -/
theorem near_solutions_threshold_monotone_witness :
    (⟨3, 4, 5, 0, 0⟩ : NearRow) ∈ find_near_solutions 6 2 (1 / 2) :=
  near_solutions_threshold_monotone 6 2 (1 / 10) (1 / 2)
    (by with_unfolding_all decide) ⟨3, 4, 5, 0, 0⟩ (by with_unfolding_all decide)

/-- Claim C8: the n = 2 enumeration is complete: every Pythagorean triple
with `1 ≤ a ≤ b`, `a² + b² = c²` and `c ≤ max_value` is produced (tagged
with error 0) and reaches the n = 2 batch result. -/
theorem exact_enumeration_complete (max_value a b c : ℕ) (ha : 1 ≤ a)
    (hab : a ≤ b) (hpy : a ^ 2 + b ^ 2 = c ^ 2) (hcm : c ≤ max_value) :
    (⟨a, b, c, 0, 0, 2⟩ : FermatRow) ∈ exactRows max_value ∧
    (⟨a, b, c, 0, 0, 2⟩ : FermatRow) ∈ generate_test_cases_rows max_value 2 := by
  have hb1 : 1 ≤ b := le_trans ha hab
  have ha2 : 0 < a ^ 2 := pow_pos (by omega) 2
  have hb2 : 0 < b ^ 2 := pow_pos (by omega) 2
  have hbc : b < c := by
    have hlt : b ^ 2 < c ^ 2 := by omega
    exact (Nat.pow_lt_pow_iff_left two_ne_zero).1 hlt
  have hsqrt : Nat.sqrt (a ^ 2 + b ^ 2) = c := by
    rw [hpy, Nat.sqrt_eq']
  have hmem : (⟨a, b, c, 0, 0, 2⟩ : FermatRow) ∈ exactRows max_value := by
    unfold exactRows
    rw [List.mem_flatMap]
    refine ⟨a, List.mem_range'_1.2 ⟨ha, by omega⟩, ?_⟩
    rw [List.mem_filterMap]
    refine ⟨b, List.mem_range'_1.2 ⟨hab, by omega⟩, ?_⟩
    show (if Nat.sqrt (a ^ 2 + b ^ 2) ^ 2 = a ^ 2 + b ^ 2 ∧
        Nat.sqrt (a ^ 2 + b ^ 2) ≤ max_value then
          some (⟨a, b, Nat.sqrt (a ^ 2 + b ^ 2), 0, 0, 2⟩ : FermatRow)
        else none) = some ⟨a, b, c, 0, 0, 2⟩
    rw [hsqrt, if_pos ⟨hpy.symm, hcm⟩]
  refine ⟨hmem, ?_⟩
  unfold generate_test_cases_rows
  rw [if_pos rfl]
  exact List.mem_append_right _ hmem

/-- Witness for C8 at the non-primitive-free check value (5, 12, 13). -/
theorem exact_enumeration_complete_witness :
    (⟨5, 12, 13, 0, 0, 2⟩ : FermatRow) ∈ exactRows 13 ∧
    (⟨5, 12, 13, 0, 0, 2⟩ : FermatRow) ∈ generate_test_cases_rows 13 2 :=
  exact_enumeration_complete 13 5 12 13 (by decide) (by decide) (by decide)
    (by decide)

